import Mathlib

/-!
# Verification of the txt-reader chapter-detection and position-restoration core

Shallow embedding of the chapter-detection / document-segmentation engine
(`src/views/js/fileProcessor.js`, `LocalFileProcessor.processContentWithChapters`)
and the viewer-side chapter parsing and reading-position restoration
(`ViewerController` in `part_001`, the standalone viewer in `part_002`).

Modelling conventions:
* JavaScript strings are modelled as `List Char` (all inputs considered live in
  the Basic Multilingual Plane, where JS UTF-16 `length` coincides with the
  character count).
* `content.split('\n')` is modelled by `splitLinesList`, `String.prototype.trim`
  by `trimChars` (the usual whitespace set), and the regular expressions of the
  source by executable matchers, one per regex, each anchored at the start of
  the line exactly as the `^`-anchored source regexes are.
* The HTML string accumulated by `processContentWithChapters` is modelled as a
  list of tokens (`Html`), one token per `htmlContent +=` statement of the
  source, so that counting opening and closing `chapter-content` tags is
  literal.
-/

/-- The whitespace characters recognised by JavaScript `trim` / `\s` that can
occur in our setting (space, tab, LF, CR, VT, FF, NBSP). -/
def jsWhitespace (c : Char) : Bool :=
  c = ' ' || c = '\t' || c = '\n' || c = '\r' ||
  c = '\x0b' || c = '\x0c' || c = ' '

/-- JS `String.prototype.trim`: drop leading and trailing whitespace. -/
def trimChars (cs : List Char) : List Char :=
  ((cs.dropWhile jsWhitespace).reverse.dropWhile jsWhitespace).reverse

/-- JS `content.split('\n')` on the character level: `""` splits to `[[]]`,
a trailing `'\n'` yields a trailing empty line. -/
def splitLinesList (cs : List Char) : List (List Char) :=
  cs.foldr
    (fun c acc =>
      match acc with
      | [] => if c = '\n' then [[], []] else [[c]]
      | ln :: rest => if c = '\n' then [] :: ln :: rest else (c :: ln) :: rest)
    [[]]

/-- The line list of a document, as produced by `content.split('\n')`. -/
def jsLines (content : String) : List (List Char) :=
  splitLinesList content.data

def isAsciiUpper (c : Char) : Bool := 'A' ≤ c && c ≤ 'Z'

def isAsciiLower (c : Char) : Bool := 'a' ≤ c && c ≤ 'z'

def isAsciiLetter (c : Char) : Bool := isAsciiUpper c || isAsciiLower c

def isAsciiDigit (c : Char) : Bool := '0' ≤ c && c ≤ '9'

/-- Case-insensitive character comparison, as used by the `/i` regex flag
(ASCII folding). -/
def charCI (a b : Char) : Bool := a.toLower = b.toLower

/-- Case-insensitive prefix stripping: `stripCI pat cs = some rest` when `cs`
starts with `pat` up to ASCII case, leaving `rest`. -/
def stripCI : List Char → List Char → Option (List Char)
  | [], cs => some cs
  | _ :: _, [] => none
  | p :: ps, c :: cs => if charCI c p then stripCI ps cs else none

/-- The Chinese numeral characters of the source's first pattern, together with
the ASCII digits admitted by `\d`. -/
def isChineseNumeral (c : Char) : Bool :=
  c = '一' || c = '二' || c = '三' || c = '四' || c = '五' ||
  c = '六' || c = '七' || c = '八' || c = '九' || c = '十' ||
  c = '百' || c = '千' || c = '万' || isAsciiDigit c

/-- The chapter-unit characters `[章节卷部篇回]`. -/
def isChapterUnit (c : Char) : Bool :=
  c = '章' || c = '节' || c = '卷' || c = '部' || c = '篇' || c = '回'

/-- `/^第?\s*([一二三四五六七八九十百千万\d]+)\s*[章节卷部篇回]/` -/
def matchChineseChapter (cs : List Char) : Bool :=
  let cs1 := match cs with
    | c :: rest => if c = '第' then rest else cs
    | [] => cs
  let cs2 := cs1.dropWhile jsWhitespace
  let run := cs2.takeWhile isChineseNumeral
  let rest := (cs2.dropWhile isChineseNumeral).dropWhile jsWhitespace
  !run.isEmpty &&
    (match rest with
     | u :: _ => isChapterUnit u
     | [] => false)

/-- `/^Chapter\s+(\d+)/i` -/
def matchEnglishChapter (cs : List Char) : Bool :=
  match stripCI "chapter".data cs with
  | some rest =>
      !(rest.takeWhile jsWhitespace).isEmpty &&
        (match rest.dropWhile jsWhitespace with
         | d :: _ => isAsciiDigit d
         | [] => false)
  | none => false

/-- `/^Section\s+(\d+)/i` -/
def matchSection (cs : List Char) : Bool :=
  match stripCI "section".data cs with
  | some rest =>
      !(rest.takeWhile jsWhitespace).isEmpty &&
        (match rest.dropWhile jsWhitespace with
         | d :: _ => isAsciiDigit d
         | [] => false)
  | none => false

def isRomanChar (c : Char) : Bool :=
  c = 'I' || c = 'V' || c = 'X' || c = 'L' || c = 'C' || c = 'D' || c = 'M'

/-- `/^[IVXLCDM]+\.\s/` -/
def matchRoman (cs : List Char) : Bool :=
  let run := cs.takeWhile isRomanChar
  !run.isEmpty &&
    (match cs.dropWhile isRomanChar with
     | '.' :: w :: _ => jsWhitespace w
     | _ => false)

/-- `/^\d+\.\d+/` -/
def matchDecimal (cs : List Char) : Bool :=
  let run := cs.takeWhile isAsciiDigit
  !run.isEmpty &&
    (match cs.dropWhile isAsciiDigit with
     | '.' :: d :: _ => isAsciiDigit d
     | _ => false)

/-- `/^[A-Z][^.]+$/` — an uppercase ASCII letter followed by one or more
characters, none of them a period, up to the end of the line. -/
def matchUppercaseStart (cs : List Char) : Bool :=
  match cs with
  | c :: rest => isAsciiUpper c && !rest.isEmpty && rest.all (fun x => x ≠ '.')
  | [] => false

/-- `/^PART\s+[A-Z]+/i` — with the `/i` flag `[A-Z]` matches any ASCII letter. -/
def matchPartHeading (cs : List Char) : Bool :=
  match stripCI "part".data cs with
  | some rest =>
      !(rest.takeWhile jsWhitespace).isEmpty &&
        (match rest.dropWhile jsWhitespace with
         | c :: _ => isAsciiLetter c
         | [] => false)
  | none => false

/-- `/^PROLOGUE/i` -/
def matchPrologue (cs : List Char) : Bool :=
  (stripCI "prologue".data cs).isSome

/-- `/^EPILOGUE/i` -/
def matchEpilogue (cs : List Char) : Bool :=
  (stripCI "epilogue".data cs).isSome

/-- The `chapterPatterns` array of `processContentWithChapters`, in source
order. -/
def chapterPatterns : List (List Char → Bool) :=
  [matchChineseChapter, matchEnglishChapter, matchSection, matchRoman,
   matchDecimal, matchUppercaseStart, matchPartHeading, matchPrologue,
   matchEpilogue]

/-- The `for (const pattern of chapterPatterns)` loop with early `break`:
true iff some pattern matches the trimmed line. -/
def patternsMatch (t : List Char) : Bool :=
  chapterPatterns.any (fun p => p t)

/-- JS `toUpperCase` restricted to ASCII (all characters of the examples and
counterexamples below are ASCII or CJK, where the two agree). -/
def jsToUpper (c : Char) : Char := c.toUpper

/-- The "special case" of the source: a line longer than 5 and shorter than
100 characters that equals its own upper-casing and contains at least one
ASCII uppercase letter. -/
def upperFallback (t : List Char) : Bool :=
  decide (5 < t.length) && decide (t.length < 100) &&
    t = t.map jsToUpper && t.any isAsciiUpper

/-- Heading classification of `processContentWithChapters` on a trimmed line:
the pattern loop, then (only when no pattern matched) the uppercase special
case. -/
def isHeadingTrimmed (t : List Char) : Bool :=
  patternsMatch t || (!patternsMatch t && upperFallback t)

/-- Heading classification of a raw line (the source trims before testing). -/
def isHeadingLine (line : List Char) : Bool :=
  isHeadingTrimmed (trimChars line)

/-! ## The segmenter `processContentWithChapters` -/

/-- `chapter-${n}` as built by the source's template literals. -/
def mkAnchorId (n : Nat) : String := "chapter-" ++ Nat.repr n

/-- One `htmlContent +=` statement of `processContentWithChapters`, kept as a
token so that tag counting is literal.  `anchor n` is the self-closed
`<div id="chapter-n" class="chapter-anchor"></div>`, `headingDiv` the
`<div class="chapter-heading">…</div>` pair, `openContent` the unmatched
`<div class="chapter-content">`, `textLine`/`blankLine` the escaped content
lines, `fallbackBody` the joined escaped lines of the no-chapter fallback and
`closeContent` the `</div>` that closes a content container. -/
inductive Html where
  | anchor (n : Nat)
  | headingDiv (title : List Char)
  | openContent
  | textLine (line : List Char)
  | blankLine
  | fallbackBody (ls : List (List Char))
  | closeContent
  deriving DecidableEq, Repr

/-- `formatChapterContentWithoutTags`: empty input gives the empty string,
otherwise one content container holding the escaped lines. -/
def formatChapterContentWithoutTags (ls : List (List Char)) : List Html :=
  if ls.isEmpty then []
  else [Html.openContent, Html.fallbackBody ls, Html.closeContent]

/-- A chapter record as pushed by `processContentWithChapters`
(`{title, content, htmlContent, anchorId}`). -/
structure ChapterRec where
  title : List Char
  content : List Char
  htmlContent : List Html
  anchorId : String
  deriving DecidableEq, Repr

/-- The mutable state of the processing loop. -/
structure SegState where
  html : List Html
  chapters : List ChapterRec
  chapterTitles : List (List Char)
  currentChapter : Option (List Char)
  currentContentLines : List (List Char)
  chapterIndex : Nat
  deriving Repr

def segInit : SegState :=
  { html := [], chapters := [], chapterTitles := [], currentChapter := none,
    currentContentLines := [], chapterIndex := 0 }

/-- `lines.join('\n')`. -/
def joinLines (ls : List (List Char)) : List Char :=
  (ls.intersperse ['\n']).flatten

/-- The record pushed for the chapter currently being accumulated (used both
when the next heading is found and at end of input). -/
def pushCurrentChapter (s : SegState) (title : List Char) : SegState :=
  { s with
    chapters := s.chapters ++
      [{ title := title
         content := joinLines s.currentContentLines
         htmlContent := formatChapterContentWithoutTags s.currentContentLines
         anchorId := mkAnchorId s.chapterIndex }]
    chapterTitles := s.chapterTitles ++ [title] }

/-- The body of the `for` loop of `processContentWithChapters` for one line
(the `i === 0` empty-line skip is handled by `effLines` below). -/
def segStep (s : SegState) (line : List Char) : SegState :=
  let t := trimChars line
  if isHeadingTrimmed t then
    let s1 := match s.currentChapter with
      | some title => pushCurrentChapter s title
      | none => s
    { s1 with
      chapterIndex := s1.chapterIndex + 1
      currentChapter := some t
      currentContentLines := []
      html := s1.html ++
        [Html.anchor (s1.chapterIndex + 1), Html.headingDiv t, Html.openContent] }
  else if !(trimChars line).isEmpty then
    { s with
      currentContentLines := s.currentContentLines ++ [line]
      html := s.html ++ [Html.textLine line] }
  else if !s.currentContentLines.isEmpty then
    { s with
      currentContentLines := s.currentContentLines ++ [line]
      html := s.html ++ [Html.blankLine] }
  else s

/-- The post-loop code handling the last chapter: push its record when it has
content, and close the open container in either case. -/
def segFinish (s : SegState) : SegState :=
  match s.currentChapter with
  | some title =>
      if !s.currentContentLines.isEmpty then
        { pushCurrentChapter s title with html := s.html ++ [Html.closeContent] }
      else
        { s with html := s.html ++ [Html.closeContent] }
  | none => s

/-- The lines the loop actually examines: `continue` skips line 0 exactly when
it trims to the empty string. -/
def effLines (content : String) : List (List Char) :=
  match jsLines content with
  | [] => []
  | l :: rest => if (trimChars l).isEmpty then rest else l :: rest

/-- The result `{htmlContent, chapters, chapterTitles}`. -/
structure SegResult where
  htmlContent : List Html
  chapters : List ChapterRec
  chapterTitles : List (List Char)
  deriving Repr

/-- `LocalFileProcessor.processContentWithChapters`, including the synthetic
single-chapter fallback used when no chapter was recorded. -/
def processContentWithChapters (content : String) : SegResult :=
  let s := segFinish ((effLines content).foldl segStep segInit)
  if s.chapters.isEmpty then
    let allContentLines := (jsLines content).filter (fun l => !(trimChars l).isEmpty)
    { htmlContent :=
        [Html.anchor 1, Html.openContent, Html.fallbackBody allContentLines,
         Html.closeContent]
      chapters :=
        [{ title := "全文".data
           content := joinLines allContentLines
           htmlContent := formatChapterContentWithoutTags allContentLines
           anchorId := "chapter-1" }]
      chapterTitles := ["全文".data] }
  else
    { htmlContent := s.html, chapters := s.chapters, chapterTitles := s.chapterTitles }

/-- Number of lines the loop classifies as chapter headings. -/
def numHeadings (content : String) : Nat :=
  (effLines content).countP isHeadingLine

/-- Number of `<div class="chapter-content">` opening tags in the output. -/
def countOpen (hs : List Html) : Nat :=
  hs.countP (fun h => h = Html.openContent)

/-- Number of `</div>` tags closing a content container in the output. -/
def countClose (hs : List Html) : Nat :=
  hs.countP (fun h => h = Html.closeContent)

/-- Is some line after the last heading non-empty?  (This is exactly the
condition under which the final chapter's record is pushed at end of input.) -/
def trailingContent (content : String) : Bool :=
  ((effLines content).reverse.takeWhile (fun l => !isHeadingLine l)).any
    (fun l => !(trimChars l).isEmpty)

/-! ## Viewer-side chapter list and reading-position restoration -/

/-- A sidebar chapter entry as pushed by `ViewerController.parseChapters`
(`{id: "chapter_" + index, title, anchorId}`). -/
structure ViewerChapter where
  id : String
  title : List Char
  anchorId : String
  deriving DecidableEq, Repr

/-- Modelled from the spec: `window.extractChapterNumber` is referenced by
`ViewerController.parseChapters` but its defining source file is absent from
the repository snapshot.  The spec's §4.1 pattern classes capture an Arabic
chapter number `N` in headings such as `Chapter N`, `Section N` or `第N章`; we
model the extractor as returning the first run of ASCII digits appearing in
the title, and `none` when the title contains no digits. -/
def extractChapterNumber (title : List Char) : Option Nat :=
  match (title.dropWhile (fun c => !isAsciiDigit c)).takeWhile isAsciiDigit with
  | [] => none
  | ds => some (ds.foldl (fun acc c => acc * 10 + (c.toNat - 48)) 0)

/-- Modelled from the spec: `LocalFileProcessor.CHAPTER_PATTERNS`, referenced
by `parseChapters`, lives in the absent newer `LocalFileProcessor`; per §4.2
the boundary detector "reuses the Segmenter's pattern set", so we take the
pattern array of the segmenter present in the sources. -/
def viewerChapterPatterns : List (List Char → Bool) := chapterPatterns

/-- `ViewerController.parseChapters` (`part_001`): every non-empty trimmed
line matching some pattern is pushed with `anchorId` preferring the number
extracted from the title and falling back to the 1-based running index. -/
def viewerParseChapters (content : String) : List ViewerChapter :=
  (jsLines content).foldl
    (fun acc line =>
      let t := trimChars line
      if t.isEmpty then acc
      else if viewerChapterPatterns.any (fun p => p t) then
        let chapterIndex := acc.2 + 1
        let anchorId := match extractChapterNumber t with
          | some n => mkAnchorId n
          | none => mkAnchorId chapterIndex
        (acc.1 ++ [{ id := "chapter_" ++ Nat.repr acc.1.length
                     title := t
                     anchorId := anchorId }], chapterIndex)
      else (acc.1, acc.2))
    (([] : List ViewerChapter), 0)
    |>.1

/-- The `{id, title}` projection returned by the current-chapter helpers. -/
structure ChapterRef where
  id : String
  title : List Char
  deriving DecidableEq, Repr

/-- `ViewerController.getCurrentChapterFromPage` (`part_001`): the descending
loop returns unconditionally on its first iteration, i.e. the LAST chapter; the
trailing `return this.state.chapters[0]` is unreachable. -/
def getCurrentChapterFromPageController (chapters : List ViewerChapter)
    (_page : Nat) : Option ChapterRef :=
  match chapters.getLast? with
  | some ch => some { id := ch.id, title := ch.title }
  | none => none

/-- `getCurrentChapterFromPage` (`part_002`): "Return the first chapter when
initially loading the page". -/
def getCurrentChapterFromPageStandalone (chapters : List ViewerChapter)
    (_page : Nat) : Option ChapterRef :=
  match chapters.head? with
  | some ch => some { id := ch.id, title := ch.title }
  | none => none

/-- JS `a.includes(b)`: `b` occurs contiguously somewhere in `a`. -/
def jsIncludes : List Char → List Char → Bool
  | a, b =>
    if b.isPrefixOf a then true
    else
      match a with
      | [] => false
      | _ :: t => jsIncludes t b

/-- The stored reading-history record (`{lastChapterTitle,
lastScrollPosition}`); a missing field is `none`. -/
structure ReadingHistory where
  lastChapterTitle : Option (List Char)
  lastScrollPosition : Option Nat
  deriving Repr

/-- The outcome of `restoreReadingPosition`: the scroll offset passed to
`scrollTo` (if any) and the `{id, title}` stored into `currentChapter` (if a
matching chapter was found). -/
structure RestoreOutcome where
  scrollTarget : Option Nat
  currentChapter : Option ChapterRef
  deriving DecidableEq, Repr

/-- The substring match of `restoreReadingPosition`: either direction. -/
def titleMatches (saved : List Char) (ch : ViewerChapter) : Bool :=
  jsIncludes ch.title saved || jsIncludes saved ch.title

/-- `restoreReadingPosition` (`part_001` / `part_002`, identical logic): both
guards are JS truthiness tests, so a stored scroll position of `0` and a
stored empty title are skipped exactly like missing ones.  (The DOM container
lookup always succeeds in this model.) -/
def restoreReadingPosition (chapters : List ViewerChapter)
    (history : ReadingHistory) : RestoreOutcome :=
  { scrollTarget :=
      match history.lastScrollPosition with
      | some v => if v ≠ 0 then some v else none
      | none => none
    currentChapter :=
      match history.lastChapterTitle with
      | some t =>
          if !t.isEmpty && !chapters.isEmpty then
            match chapters.find? (titleMatches t) with
            | some ch => some { id := ch.id, title := ch.title }
            | none => none
          else none
      | none => none }

/-! ## The chapter-count based splitter (spec-modelled)

`LibraryController.processSelectedFile` (`part_000`) decides splitting via
`this.state.processor.detectChapters(fileContent)` and then calls
`this.state.processor.processAndSplitFile(file)`; the `LocalFileProcessor`
version implementing these (the one also carrying `CHAPTER_PATTERNS` and
`isUtf8Encoded`) is absent from the repository snapshot — the
`fileProcessor.js` present in the sources only has the legacy line-count
splitter.  The chunking itself is therefore modelled from the spec (§4.2). -/

/-- Modelled from the spec: `detectBoundaries(rawText)` "reuses the
Segmenter's pattern set to produce a flat list of `{lineIndex, title}`
without building markup". -/
def detectBoundaries (content : String) : List (Nat × List Char) :=
  ((jsLines content).enum.filter (fun p => isHeadingLine p.2)).map
    (fun p => (p.1, trimChars p.2))

/-- Structural worker for `groupHeads`; the fuel is the list length, so the
definition evaluates by kernel reduction. -/
def groupHeadsAux : Nat → List Nat → Nat → List Nat
  | 0, _, _ => []
  | _ + 1, [], _ => []
  | fuel + 1, b :: t, k => b :: groupHeadsAux fuel (t.drop (k - 1)) k

/-- The first line index of every consecutive group of `k` boundaries. -/
def groupHeads (bs : List Nat) (k : Nat) : List Nat :=
  groupHeadsAux bs.length bs k

/-- Half-open line ranges: each chunk starts at its group's first boundary and
ends exclusively at the next group's first boundary, the last one at EOF. -/
def chunkRanges (starts : List Nat) (total : Nat) : List (Nat × Nat) :=
  match starts with
  | [] => []
  | [s] => [(s, total)]
  | s :: s' :: r => (s, s') :: chunkRanges (s' :: r) total

/-- Modelled from the spec: the splitting policy of §4.2 — a single chunk
covering the whole document when the boundary count is at most
`maxChaptersPerChunk`, otherwise consecutive groups of that size with the
line ranges of `chunkRanges`.  A chunk is represented by its half-open line
range. -/
def chunkSplit (content : String) (maxChaptersPerChunk : Nat) : List (Nat × Nat) :=
  let total := (jsLines content).length
  let bs := detectBoundaries content
  if bs.length ≤ maxChaptersPerChunk then [(0, total)]
  else chunkRanges (groupHeads (bs.map (·.1)) maxChaptersPerChunk) total

/-- `chainedCover rs a b`: the ranges `rs` tile `[a, b)` left to right with no
gap and no overlap. -/
def chainedCover : List (Nat × Nat) → Nat → Nat → Bool
  | [], a, b => a = b
  | (s, e) :: rest, a, b => s = a && chainedCover rest e b

/-! ## Claim-side heading predicates (for the refinement comparison of C1) -/

/-- The optional uppercase class in the words of the claim: a line entirely
uppercase, between 5 and 100 characters, containing at least one letter. -/
def claimUppercaseClass (t : List Char) : Bool :=
  decide (5 ≤ t.length) && decide (t.length ≤ 100) &&
    t = t.map jsToUpper && t.any isAsciiLetter

/-- The claim's classification: one of eight pattern classes (Chinese
ordinals; Chapter N; Section N; Roman numeral period space; decimal outline;
PART word; PROLOGUE; EPILOGUE), plus the uppercase class only when the
fallback toggle is enabled. -/
def claimEightHeading (fallbackEnabled : Bool) (t : List Char) : Bool :=
  matchChineseChapter t || matchEnglishChapter t || matchSection t ||
  matchRoman t || matchDecimal t || matchPartHeading t || matchPrologue t ||
  matchEpilogue t || (fallbackEnabled && claimUppercaseClass t)

/-- The amended classification: the same eight classes, the ninth class
`/^[A-Z][^.]+$/` present in the source's pattern array, and the source's
uppercase special case, which is always active (not togglable) and requires
the length to be strictly between 5 and 100 with at least one ASCII
uppercase letter. -/
def amendedNineHeading (t : List Char) : Bool :=
  matchChineseChapter t || matchEnglishChapter t || matchSection t ||
  matchRoman t || matchDecimal t || matchUppercaseStart t ||
  matchPartHeading t || matchPrologue t || matchEpilogue t ||
  upperFallback t

/-! ## Invariants of the segmentation loop -/

theorem bool_or_masked (a b : Bool) : (a || (!a && b)) = (a || b) := by
  cases a <;> cases b <;> rfl

/-- The loop invariant of `processContentWithChapters`: the chapter counter
counts the stored records plus the chapter being accumulated, no closing tag
has been emitted yet, one container has been opened per counted chapter, a
chapter is being accumulated iff any chapter was ever seen, and the stored
records carry the anchor ids `chapter-1`, `chapter-2`, … in order. -/
def SegInv (s : SegState) : Prop :=
  s.chapterIndex = s.chapters.length + (if s.currentChapter.isSome then 1 else 0) ∧
  countClose s.html = 0 ∧
  countOpen s.html = s.chapterIndex ∧
  (s.currentChapter.isSome ↔ s.chapterIndex ≠ 0) ∧
  s.chapters.map (·.anchorId) =
    (List.range s.chapters.length).map (fun i => mkAnchorId (i + 1))

theorem segInv_init : SegInv segInit := by
  refine ⟨rfl, rfl, rfl, by simp [segInit], rfl⟩

theorem countOpen_append (a b : List Html) :
    countOpen (a ++ b) = countOpen a + countOpen b := by
  simp [countOpen, List.countP_append]

theorem countClose_append (a b : List Html) :
    countClose (a ++ b) = countClose a + countClose b := by
  simp [countClose, List.countP_append]

theorem anchorMap_push (cs : List ChapterRec) (r : ChapterRec)
    (h : cs.map (·.anchorId) =
      (List.range cs.length).map (fun i => mkAnchorId (i + 1)))
    (hr : r.anchorId = mkAnchorId (cs.length + 1)) :
    (cs ++ [r]).map (·.anchorId) =
      (List.range (cs ++ [r]).length).map (fun i => mkAnchorId (i + 1)) := by
  simp only [List.map_append, List.length_append, List.length_cons,
    List.length_nil, Nat.zero_add, List.range_succ, h, List.map_cons,
    List.map_nil, hr]

theorem segInv_step (s : SegState) (line : List Char) (h : SegInv s) :
    SegInv (segStep s line) := by
  obtain ⟨hidx, hclose, hopen, hsome, hmap⟩ := h
  unfold segStep
  by_cases hh : isHeadingTrimmed (trimChars line) = true
  · simp only [hh, if_true]
    cases hcur : s.currentChapter with
    | none =>
        simp only [hcur] at hidx ⊢
        refine ⟨?_, ?_, ?_, ?_, ?_⟩
        · simpa using hidx
        · simpa [countClose_append, countClose] using hclose
        · simpa [countOpen_append, countOpen] using hopen
        · simp
        · simpa using hmap
    | some title =>
        simp only [hcur] at hidx ⊢
        have hlen : (pushCurrentChapter s title).chapters.length =
            s.chapters.length + 1 := by
          simp [pushCurrentChapter]
        refine ⟨?_, ?_, ?_, ?_, ?_⟩
        · simp only [pushCurrentChapter, List.length_append, List.length_cons,
            List.length_nil, Nat.zero_add, Option.isSome_some, if_true]
          simp at hidx
          omega
        · simp only [pushCurrentChapter]
          simpa [countClose_append, countClose] using hclose
        · simp only [pushCurrentChapter]
          simpa [countOpen_append, countOpen] using hopen
        · simp
        · simp only [pushCurrentChapter]
          exact anchorMap_push s.chapters _ hmap (by simp at hidx; simp [hidx])
  · simp only [hh, if_false, Bool.not_eq_true] at *
    by_cases hne : (trimChars line).isEmpty = false
    · simp only [hh, hne, Bool.not_false, if_true, Bool.false_eq_true,
        if_false]
      refine ⟨hidx, ?_, ?_, hsome, hmap⟩
      · simpa [countClose_append, countClose] using hclose
      · simpa [countOpen_append, countOpen] using hopen
    · simp only [Bool.not_eq_false] at hne
      simp only [hh, hne, Bool.not_true, Bool.false_eq_true, if_false]
      by_cases hcl : s.currentContentLines.isEmpty = false
      · simp only [hcl, Bool.not_false, if_true]
        refine ⟨hidx, ?_, ?_, hsome, hmap⟩
        · simpa [countClose_append, countClose] using hclose
        · simpa [countOpen_append, countOpen] using hopen
      · simp only [Bool.not_eq_false] at hcl
        simp only [hcl, Bool.not_true, Bool.false_eq_true, if_false]
        exact ⟨hidx, hclose, hopen, hsome, hmap⟩

theorem segInv_fold (ls : List (List Char)) :
    ∀ s : SegState, SegInv s → SegInv (ls.foldl segStep s) := by
  induction ls with
  | nil => intro s h; exact h
  | cons l ls ih =>
      intro s h
      exact ih (segStep s l) (segInv_step s l h)

theorem segStep_chapterIndex (s : SegState) (line : List Char) :
    (segStep s line).chapterIndex =
      s.chapterIndex + (if isHeadingLine line then 1 else 0) := by
  unfold segStep isHeadingLine
  by_cases hh : isHeadingTrimmed (trimChars line) = true
  · cases hcur : s.currentChapter <;> simp [hh, pushCurrentChapter, hcur]
  · simp only [Bool.not_eq_true] at hh
    simp only [hh, Bool.false_eq_true, if_false, Nat.add_zero]
    by_cases hne : (trimChars line).isEmpty = false
    · simp [hh, hne]
    · simp only [Bool.not_eq_false] at hne
      by_cases hcl : s.currentContentLines.isEmpty = false <;>
        simp [hh, hne, hcl]

theorem segFold_chapterIndex (ls : List (List Char)) :
    ∀ s : SegState,
      (ls.foldl segStep s).chapterIndex =
        s.chapterIndex + ls.countP isHeadingLine := by
  induction ls with
  | nil => intro s; simp
  | cons l ls ih =>
      intro s
      simp only [List.foldl_cons, ih, segStep_chapterIndex, List.countP_cons]
      by_cases hl : isHeadingLine l
      · simp only [hl, if_true]
        omega
      · simp [hl]

theorem segStep_nonheading_frame (s : SegState) (line : List Char)
    (h : isHeadingLine line = false) :
    (segStep s line).chapters = s.chapters ∧
    (segStep s line).currentChapter = s.currentChapter ∧
    (segStep s line).chapterTitles = s.chapterTitles := by
  unfold segStep
  unfold isHeadingLine at h
  simp only [h, Bool.false_eq_true, if_false]
  by_cases hne : (trimChars line).isEmpty = false
  · simp [hne]
  · simp only [Bool.not_eq_false] at hne
    by_cases hcl : s.currentContentLines.isEmpty = false <;> simp [hne, hcl]

theorem segFold_nonheading (ls : List (List Char))
    (h : ∀ l ∈ ls, isHeadingLine l = false) :
    ∀ s : SegState,
      (ls.foldl segStep s).chapters = s.chapters ∧
      (ls.foldl segStep s).currentChapter = s.currentChapter := by
  induction ls with
  | nil => intro s; exact ⟨rfl, rfl⟩
  | cons l ls ih =>
      intro s
      have hl := h l (List.mem_cons_self l ls)
      have hrest : ∀ x ∈ ls, isHeadingLine x = false := fun x hx =>
        h x (List.mem_cons_of_mem l hx)
      obtain ⟨h1, h2, _⟩ := segStep_nonheading_frame s l hl
      obtain ⟨ih1, ih2⟩ := ih hrest (segStep s l)
      exact ⟨by rw [List.foldl_cons, ih1, h1], by rw [List.foldl_cons, ih2, h2]⟩

theorem segStep_contentLines (s : SegState) (line : List Char) :
    (segStep s line).currentContentLines.isEmpty =
      (if isHeadingLine line then true
       else if !(trimChars line).isEmpty then false
       else s.currentContentLines.isEmpty) := by
  unfold segStep
  by_cases hh : isHeadingLine line
  · have hh2 : isHeadingTrimmed (trimChars line) = true := hh
    simp [hh, hh2]
  · simp only [Bool.not_eq_true] at hh
    have hh2 : isHeadingTrimmed (trimChars line) = false := hh
    by_cases hne : (trimChars line).isEmpty = false
    · simp [hh, hh2, hne]
    · simp only [Bool.not_eq_false] at hne
      by_cases hcl : s.currentContentLines.isEmpty = false
      · simp [hh, hh2, hne, hcl]
      · simp only [Bool.not_eq_false] at hcl
        simp [hh, hh2, hne, hcl]

/-- After the loop, content has been accumulated for the pending chapter iff
some line after the last heading is non-empty. -/
theorem segFold_contentLines (ls : List (List Char)) :
    ((ls.foldl segStep segInit).currentContentLines.isEmpty = false) ↔
      ((ls.reverse.takeWhile (fun l => !isHeadingLine l)).any
        (fun l => !(trimChars l).isEmpty) = true) := by
  induction ls using List.reverseRecOn with
  | nil => simp [segInit]
  | append_singleton ls l ih =>
      rw [List.foldl_append, List.foldl_cons, List.foldl_nil]
      simp only [List.reverse_append, List.reverse_singleton,
        List.singleton_append, List.takeWhile_cons]
      have hstep := segStep_contentLines (ls.foldl segStep segInit) l
      by_cases hh : isHeadingLine l
      · simp [hstep, hh]
      · by_cases hne : (trimChars l).isEmpty
        · simp only [hstep, hh, hne, Bool.not_false, Bool.not_true,
            Bool.false_eq_true, if_false, if_true, List.any_cons]
          simpa using ih
        · simp [hstep, hh, hne]

theorem segFinish_none (s : SegState) (h : s.currentChapter = none) :
    segFinish s = s := by
  unfold segFinish
  simp [h]

theorem segFinish_some_content (s : SegState) (title : List Char)
    (h : s.currentChapter = some title)
    (hc : s.currentContentLines.isEmpty = false) :
    segFinish s =
      { pushCurrentChapter s title with
        html := s.html ++ [Html.closeContent] } := by
  unfold segFinish
  simp [h, hc]

theorem segFinish_some_empty (s : SegState) (title : List Char)
    (h : s.currentChapter = some title)
    (hc : s.currentContentLines.isEmpty = true) :
    segFinish s = { s with html := s.html ++ [Html.closeContent] } := by
  unfold segFinish
  simp [h, hc]

/-- The loop scans `effLines` and its heading count is `numHeadings`. -/
theorem segFold_idx_init (content : String) :
    ((effLines content).foldl segStep segInit).chapterIndex =
      numHeadings content := by
  rw [segFold_chapterIndex]
  simp [numHeadings, segInit]

theorem countClose_single : countClose [Html.closeContent] = 1 := by
  simp [countClose]

theorem countOpen_close_single : countOpen [Html.closeContent] = 0 := by
  simp [countOpen]

/-- Facts about the finished (pre-fallback) state: with no heading nothing was
recorded or emitted; with `H ≥ 1` headings exactly one closing tag and `H`
opening tags are emitted, and the record count is `H` or `H - 1` according to
whether content follows the last heading. -/
theorem segFinish_facts (content : String) :
    (numHeadings content = 0 →
      (segFinish ((effLines content).foldl segStep segInit)).chapters.length = 0 ∧
      countClose (segFinish ((effLines content).foldl segStep segInit)).html = 0 ∧
      countOpen (segFinish ((effLines content).foldl segStep segInit)).html = 0) ∧
    (numHeadings content ≠ 0 →
      countClose (segFinish ((effLines content).foldl segStep segInit)).html = 1 ∧
      countOpen (segFinish ((effLines content).foldl segStep segInit)).html =
        numHeadings content ∧
      (segFinish ((effLines content).foldl segStep segInit)).chapters.length =
        (if trailingContent content then numHeadings content
         else numHeadings content - 1)) := by
  obtain ⟨hidx, hclose, hopen, hsome, hmap⟩ :
      SegInv ((effLines content).foldl segStep segInit) :=
    segInv_fold _ segInit segInv_init
  have hidx0 := segFold_idx_init content
  have htrail :
      (((effLines content).foldl segStep segInit).currentContentLines.isEmpty
          = false) ↔ (trailingContent content = true) :=
    segFold_contentLines (effLines content)
  constructor
  · intro h0
    have hnone : ((effLines content).foldl segStep segInit).currentChapter = none := by
      cases hcur : ((effLines content).foldl segStep segInit).currentChapter with
      | none => rfl
      | some t =>
          exfalso
          exact hsome.mp (by simp [hcur]) (by omega)
    rw [segFinish_none _ hnone]
    simp only [hnone, Option.isSome_none, Bool.false_eq_true, if_false] at hidx
    exact ⟨by omega, hclose, by omega⟩
  · intro h0
    have hsome' : ((effLines content).foldl segStep segInit).currentChapter.isSome :=
      hsome.mpr (by omega)
    obtain ⟨t, hcur⟩ := Option.isSome_iff_exists.mp hsome'
    simp only [hcur, Option.isSome_some, if_true] at hidx
    by_cases hc : ((effLines content).foldl segStep segInit).currentContentLines.isEmpty = false
    · rw [segFinish_some_content _ t hcur hc]
      have ht : trailingContent content = true := htrail.mp hc
      refine ⟨?_, ?_, ?_⟩
      · simp [pushCurrentChapter, countClose_append, hclose, countClose_single]
      · simp [pushCurrentChapter, countOpen_append, hopen, countOpen_close_single]
        omega
      · simp only [pushCurrentChapter, List.length_append, List.length_cons,
          List.length_nil, Nat.zero_add, ht, if_true]
        omega
    · simp only [Bool.not_eq_false] at hc
      rw [segFinish_some_empty _ t hcur hc]
      have ht : trailingContent content = false := by
        cases h : trailingContent content with
        | false => rfl
        | true => exact absurd (htrail.mpr h) (by simp [hc])
      refine ⟨?_, ?_, ?_⟩
      · simp [countClose_append, hclose, countClose_single]
      · simp [countOpen_append, hopen, countOpen_close_single]
        omega
      · simp only [ht, Bool.false_eq_true, if_false]
        omega

/-! ## Injectivity of the decimal rendering used in `chapter-${n}` -/

/-- Value of a decimal digit string (the inverse of `Nat.repr`). -/
def digitsVal (cs : List Char) : Nat :=
  cs.foldl (fun acc c => acc * 10 + (c.toNat - 48)) 0

theorem digitsVal_foldl_linear (cs : List Char) :
    ∀ a : Nat,
      cs.foldl (fun acc c => acc * 10 + (c.toNat - 48)) a =
        a * 10 ^ cs.length + digitsVal cs := by
  induction cs with
  | nil => intro a; simp [digitsVal]
  | cons c cs ih =>
      intro a
      simp only [List.foldl_cons, digitsVal, List.length_cons]
      rw [ih (a * 10 + (c.toNat - 48)), ih (0 * 10 + (c.toNat - 48))]
      ring

theorem digitChar_sub (m : Nat) (h : m < 10) :
    (Nat.digitChar m).toNat - 48 = m := by
  interval_cases m <;> rfl

theorem toDigitsCore_val :
    ∀ (f n : Nat) (ds : List Char), n < 10 ^ f →
      digitsVal (Nat.toDigitsCore 10 f n ds) =
        n * 10 ^ ds.length + digitsVal ds := by
  intro f
  induction f with
  | zero =>
      intro n ds h
      simp only [Nat.pow_zero, Nat.lt_one_iff] at h
      subst h
      simp [Nat.toDigitsCore]
  | succ f ih =>
      intro n ds h
      by_cases hdiv : n / 10 = 0
      · have hlt : n < 10 := by omega
        have hstep : Nat.toDigitsCore 10 (f + 1) n ds =
            Nat.digitChar (n % 10) :: ds := by
          simp [Nat.toDigitsCore, hdiv]
        rw [hstep]
        simp only [digitsVal, List.foldl_cons, Nat.zero_mul, Nat.zero_add]
        rw [digitsVal_foldl_linear ds ((Nat.digitChar (n % 10)).toNat - 48)]
        rw [digitChar_sub (n % 10) (Nat.mod_lt n (by omega))]
        rw [Nat.mod_eq_of_lt hlt]
        rfl
      · have hstep : Nat.toDigitsCore 10 (f + 1) n ds =
            Nat.toDigitsCore 10 f (n / 10) (Nat.digitChar (n % 10) :: ds) := by
          simp [Nat.toDigitsCore, hdiv]
        have hpow : (10 : Nat) ^ (f + 1) = 10 ^ f * 10 := pow_succ 10 f
        have hlt' : n / 10 < 10 ^ f := by omega
        rw [hstep, ih _ _ hlt']
        simp only [digitsVal, List.foldl_cons, Nat.zero_mul, Nat.zero_add,
          List.length_cons]
        rw [digitsVal_foldl_linear ds ((Nat.digitChar (n % 10)).toNat - 48)]
        rw [digitChar_sub (n % 10) (Nat.mod_lt n (by omega))]
        have hdm : n / 10 * 10 + n % 10 = n := by omega
        rw [pow_succ]
        conv_rhs => rw [← hdm]
        ring_nf
        rfl

theorem natRepr_val (n : Nat) : digitsVal (Nat.repr n).data = n := by
  have h2 : n < 2 ^ n := Nat.lt_two_pow n
  have h10 : (2 : Nat) ^ n ≤ 10 ^ n :=
    Nat.pow_le_pow_left (by omega) n
  have h10' : (10 : Nat) ^ n ≤ 10 ^ (n + 1) :=
    Nat.pow_le_pow_right (by omega) (Nat.le_succ n)
  have hbound : n < 10 ^ (n + 1) := by omega
  show digitsVal (Nat.toDigits 10 n).asString.data = n
  have hdata : (Nat.toDigits 10 n).asString.data = Nat.toDigits 10 n := rfl
  rw [hdata]
  unfold Nat.toDigits
  rw [toDigitsCore_val (n + 1) n [] hbound]
  simp [digitsVal]

theorem natRepr_injective {m n : Nat} (h : Nat.repr m = Nat.repr n) : m = n := by
  have hm := natRepr_val m
  rw [h, natRepr_val] at hm
  exact hm.symm

theorem string_data_append (a b : String) : (a ++ b).data = a.data ++ b.data := by
  cases a
  cases b
  rfl

theorem mkAnchorId_injective {m n : Nat} (h : mkAnchorId m = mkAnchorId n) :
    m = n := by
  unfold mkAnchorId at h
  have hdata := congrArg String.data h
  rw [string_data_append, string_data_append] at hdata
  have hrepr : (Nat.repr m).data = (Nat.repr n).data :=
    List.append_cancel_left hdata
  have hm := natRepr_val m
  rw [hrepr, natRepr_val] at hm
  exact hm.symm

theorem segFinish_anchorMap (s : SegState) (hinv : SegInv s) :
    (segFinish s).chapters.map (·.anchorId) =
      (List.range (segFinish s).chapters.length).map
        (fun i => mkAnchorId (i + 1)) := by
  obtain ⟨hidx, -, -, -, hmap⟩ := hinv
  cases hcur : s.currentChapter with
  | none =>
      rw [segFinish_none s hcur]
      exact hmap
  | some t =>
      by_cases hc : s.currentContentLines.isEmpty = false
      · rw [segFinish_some_content s t hcur hc]
        simp only [pushCurrentChapter]
        apply anchorMap_push s.chapters _ hmap
        simp only [hcur, Option.isSome_some, if_true] at hidx
        simp [hidx]
      · simp only [Bool.not_eq_false] at hc
        rw [segFinish_some_empty s t hcur hc]
        exact hmap

theorem mkAnchorId_one : mkAnchorId 1 = "chapter-1" := by decide

/-- Anchor ids of the returned records are `chapter-1`, `chapter-2`, … in
order, in both the regular path and the synthetic fallback. -/
theorem process_anchorMap (content : String) :
    (processContentWithChapters content).chapters.map (·.anchorId) =
      (List.range (processContentWithChapters content).chapters.length).map
        (fun i => mkAnchorId (i + 1)) := by
  unfold processContentWithChapters
  by_cases hemp :
      (segFinish ((effLines content).foldl segStep segInit)).chapters.isEmpty
  · simp only [hemp, if_true]
    simp only [List.map_cons, List.map_nil, List.length_cons, List.length_nil,
      Nat.zero_add, List.range_succ, List.range_zero, List.nil_append,
      mkAnchorId_one]
  · rw [Bool.not_eq_true] at hemp
    simp only [hemp, Bool.false_eq_true, if_false]
    exact segFinish_anchorMap _ (segInv_fold _ segInit segInv_init)

/-- C2 helper: the element-wise consequence of `process_anchorMap`. -/
theorem process_anchor_get (content : String) (i : Nat)
    (h : i < (processContentWithChapters content).chapters.length) :
    ((processContentWithChapters content).chapters.get ⟨i, h⟩).anchorId =
      mkAnchorId (i + 1) := by
  have hmap := process_anchorMap content
  have h1 := congrArg (fun l => l[i]?) hmap
  beta_reduce at h1
  rw [List.getElem?_map, List.getElem?_map] at h1
  rw [List.getElem?_eq_getElem h, List.getElem?_range h] at h1
  simp only [Option.map_some'] at h1
  have h2 := Option.some.inj h1
  simpa [List.get_eq_getElem] using h2

theorem process_counts (content : String) :
    countClose (processContentWithChapters content).htmlContent = 1 ∧
    countOpen (processContentWithChapters content).htmlContent =
      max 1 (numHeadings content) := by
  obtain ⟨hzero, hpos⟩ := segFinish_facts content
  unfold processContentWithChapters
  by_cases hemp :
      (segFinish ((effLines content).foldl segStep segInit)).chapters.isEmpty
  · have hlen : (segFinish ((effLines content).foldl segStep segInit)).chapters.length = 0 := by
      simpa [List.isEmpty_iff] using hemp
    have hH : numHeadings content ≤ 1 := by
      by_cases h0 : numHeadings content = 0
      · omega
      · obtain ⟨-, -, hl⟩ := hpos h0
        by_cases ht : trailingContent content
        · simp only [ht, if_true] at hl
          omega
        · simp only [ht, Bool.false_eq_true, if_false] at hl
          omega
    simp only [hemp, if_true]
    constructor
    · simp [countClose, List.countP_cons, List.countP_nil]
    · simp only [countOpen, List.countP_cons, List.countP_nil]
      simp
      omega
  · rw [Bool.not_eq_true] at hemp
    have hne : (segFinish ((effLines content).foldl segStep segInit)).chapters.length ≠ 0 := by
      intro hlen0
      rw [List.length_eq_zero] at hlen0
      rw [hlen0] at hemp
      simp at hemp
    have hH : numHeadings content ≠ 0 := by
      intro h0
      obtain ⟨hl, -, -⟩ := hzero h0
      exact hne hl
    obtain ⟨hc, ho, -⟩ := hpos hH
    simp only [hemp, Bool.false_eq_true, if_false]
    exact ⟨hc, by rw [ho]; omega⟩

theorem process_length (content : String) (hH : numHeadings content ≠ 0) :
    (processContentWithChapters content).chapters.length =
      max 1 (if trailingContent content then numHeadings content
             else numHeadings content - 1) := by
  obtain ⟨hzero, hpos⟩ := segFinish_facts content
  obtain ⟨-, -, hl⟩ := hpos hH
  unfold processContentWithChapters
  by_cases hemp :
      (segFinish ((effLines content).foldl segStep segInit)).chapters.isEmpty
  · have hlen : (segFinish ((effLines content).foldl segStep segInit)).chapters.length = 0 := by
      simpa [List.isEmpty_iff] using hemp
    simp only [hemp, if_true, List.length_cons, List.length_nil]
    by_cases ht : trailingContent content
    · simp only [ht, if_true] at hl ⊢
      omega
    · simp only [ht, Bool.false_eq_true, if_false] at hl ⊢
      omega
  · rw [Bool.not_eq_true] at hemp
    have hne : (segFinish ((effLines content).foldl segStep segInit)).chapters.length ≠ 0 := by
      intro hlen0
      rw [List.length_eq_zero] at hlen0
      rw [hlen0] at hemp
      simp at hemp
    simp only [hemp, Bool.false_eq_true, if_false]
    omega

theorem mem_effLines {content : String} {l : List Char}
    (h : l ∈ effLines content) : l ∈ jsLines content := by
  unfold effLines at h
  cases hjs : jsLines content with
  | nil => rw [hjs] at h; cases h
  | cons a t =>
      rw [hjs] at h
      by_cases ha : (trimChars a).isEmpty
      · simp only [ha, if_true] at h
        exact List.mem_cons_of_mem a h
      · simp only [ha, Bool.false_eq_true, if_false] at h
        exact h

theorem process_no_headings (content : String)
    (h : ∀ l ∈ jsLines content, isHeadingLine l = false) :
    processContentWithChapters content =
      { htmlContent :=
          [Html.anchor 1, Html.openContent,
           Html.fallbackBody
             ((jsLines content).filter (fun l => !(trimChars l).isEmpty)),
           Html.closeContent]
        chapters :=
          [{ title := "全文".data
             content := joinLines
               ((jsLines content).filter (fun l => !(trimChars l).isEmpty))
             htmlContent := formatChapterContentWithoutTags
               ((jsLines content).filter (fun l => !(trimChars l).isEmpty))
             anchorId := "chapter-1" }]
        chapterTitles := ["全文".data] } := by
  have heff : ∀ l ∈ effLines content, isHeadingLine l = false := fun l hl =>
    h l (mem_effLines hl)
  obtain ⟨hch, hcur⟩ := segFold_nonheading (effLines content) heff segInit
  have hfin : segFinish ((effLines content).foldl segStep segInit) =
      (effLines content).foldl segStep segInit :=
    segFinish_none _ (by rw [hcur]; rfl)
  have hemp : (segFinish ((effLines content).foldl segStep segInit)).chapters.isEmpty := by
    rw [hfin, hch]
    rfl
  unfold processContentWithChapters
  simp only [hemp, if_true]

theorem anchorList_pairwise (n : Nat) :
    ((List.range n).map (fun i => mkAnchorId (i + 1))).Pairwise (· ≠ ·) := by
  rw [List.pairwise_map]
  apply List.Pairwise.imp ?_ (List.pairwise_lt_range n)
  intro a b hab hEq
  exact absurd (mkAnchorId_injective hEq) (by omega)

/-! ## Claim C1 -/

/-- C1, counterexample: the line `Apple pie` is classified as a chapter
heading by the segmenter (it matches the ninth source pattern
`/^[A-Z][^.]+$/`), yet it matches none of the claim's eight pattern classes
and is not entirely uppercase, so the claim's classification calls it
ordinary content whether or not the uppercase fallback is enabled. -/
theorem claim_c1_counterexample :
    isHeadingLine "Apple pie".data = true ∧
    claimEightHeading true (trimChars "Apple pie".data) = false ∧
    claimEightHeading false (trimChars "Apple pie".data) = false := by
  decide

/-- C1, amended: a non-empty trimmed line is classified as a chapter heading
iff it matches one of NINE pattern classes — the claim's eight plus
`/^[A-Z][^.]+$/` (an uppercase ASCII letter followed by one or more
non-period characters spanning the line) — or the always-active (not
togglable) uppercase special case, whose length bounds are strict
(`5 < length < 100`) and which requires an ASCII uppercase letter. -/
theorem claim_c1_amended (line : List Char)
    (_h : (trimChars line).isEmpty = false) :
    isHeadingLine line = amendedNineHeading (trimChars line) := by
  show isHeadingTrimmed (trimChars line) = _
  unfold isHeadingTrimmed amendedNineHeading
  rw [bool_or_masked]
  simp [patternsMatch, chapterPatterns, Bool.or_assoc]

/-- C1, witness for the amended theorem at the line `Apple pie`. -/
theorem claim_c1_amended_witness :
    (trimChars "Apple pie".data).isEmpty = false ∧
    isHeadingLine "Apple pie".data =
      amendedNineHeading (trimChars "Apple pie".data) :=
  ⟨by decide, claim_c1_amended "Apple pie".data (by decide)⟩

/-! ## Claim C2 -/

/-- C2, counterexample: on `"Chapter 1\nx\nChapter 2\ny"` the rendered output
contains two opening `chapter-content` tags but only one closing tag — the
container opened for the first chapter is never closed, so the markup is not
well-formed. -/
theorem claim_c2_counterexample :
    countOpen (processContentWithChapters "Chapter 1\nx\nChapter 2\ny").htmlContent = 2 ∧
    countClose (processContentWithChapters "Chapter 1\nx\nChapter 2\ny").htmlContent = 1 := by
  decide

/-- C2, amended: for every input exactly one closing container tag is
emitted, while the number of opening container tags is the number of detected
headings (or one, in the synthetic fallback); the output is therefore
well-formed only when at most one container was opened, not in general. -/
theorem claim_c2_amended (content : String) :
    countClose (processContentWithChapters content).htmlContent = 1 ∧
    countOpen (processContentWithChapters content).htmlContent =
      max 1 (numHeadings content) :=
  process_counts content

/-! ## Claim C3 -/

/-- C3, counterexample: `"Chapter 1\nx\nChapter 2"` has two detected heading
lines but yields only one chapter record — the heading at end of input with
no following content line produces no record. -/
theorem claim_c3_counterexample :
    numHeadings "Chapter 1\nx\nChapter 2" = 2 ∧
    (processContentWithChapters "Chapter 1\nx\nChapter 2").chapters.length = 1 := by
  decide

/-- C3, amended: when at least one heading is detected the number of chapter
records is the number of detected headings when some non-empty line follows
the last heading, and one fewer otherwise (the trailing heading's record is
dropped); when that leaves zero records the synthetic fallback contributes
its single record. -/
theorem claim_c3_amended (content : String) (h : numHeadings content ≠ 0) :
    (processContentWithChapters content).chapters.length =
      max 1 (if trailingContent content then numHeadings content
             else numHeadings content - 1) :=
  process_length content h

/-- C3, witness for the amended theorem at `"Chapter 1\nx\nChapter 2"`. -/
theorem claim_c3_amended_witness :
    numHeadings "Chapter 1\nx\nChapter 2" ≠ 0 ∧
    (processContentWithChapters "Chapter 1\nx\nChapter 2").chapters.length =
      max 1 (if trailingContent "Chapter 1\nx\nChapter 2"
             then numHeadings "Chapter 1\nx\nChapter 2"
             else numHeadings "Chapter 1\nx\nChapter 2" - 1) :=
  ⟨by decide, claim_c3_amended "Chapter 1\nx\nChapter 2" (by decide)⟩

/-! ## Claim C4 -/

/-- C4: the i-th (0-based) chapter record returned by the segmenter carries
`anchorId = "chapter-" + (i+1)` — ordinals are contiguous, strictly
ascending, and the synthetic fallback record is anchored at `chapter-1`. -/
theorem claim_c4_anchor_ordinals (content : String) (i : Nat)
    (h : i < (processContentWithChapters content).chapters.length) :
    ((processContentWithChapters content).chapters.get ⟨i, h⟩).anchorId =
      "chapter-" ++ Nat.repr (i + 1) :=
  process_anchor_get content i h

/-- C4, witness: the second record of a two-chapter document is anchored at
`chapter-2`, and the fallback record of a heading-free document at
`chapter-1`. -/
theorem claim_c4_anchor_ordinals_witness :
    (1 < (processContentWithChapters "Chapter 1\nx\nChapter 2\ny").chapters.length ∧
      ((processContentWithChapters "Chapter 1\nx\nChapter 2\ny").chapters.get
        ⟨1, by decide⟩).anchorId = "chapter-" ++ Nat.repr 2) ∧
    (0 < (processContentWithChapters "plain text").chapters.length ∧
      ((processContentWithChapters "plain text").chapters.get
        ⟨0, by decide⟩).anchorId = "chapter-" ++ Nat.repr 1) :=
  ⟨⟨by decide, claim_c4_anchor_ordinals "Chapter 1\nx\nChapter 2\ny" 1 (by decide)⟩,
   ⟨by decide, claim_c4_anchor_ordinals "plain text" 0 (by decide)⟩⟩

/-! ## Claim C6 -/

/-- C6: for any input in which no line is detected as a heading (including
the empty string), the segmenter returns exactly one synthetic chapter titled
`全文` ("Full text"), anchored at `chapter-1`, containing all non-empty
lines; the model is a total function, so no exception is possible. -/
theorem claim_c6_fallback (content : String)
    (h : ∀ l ∈ jsLines content, isHeadingLine l = false) :
    (processContentWithChapters content).chapters =
      [{ title := "全文".data
         content := joinLines
           ((jsLines content).filter (fun l => !(trimChars l).isEmpty))
         htmlContent := formatChapterContentWithoutTags
           ((jsLines content).filter (fun l => !(trimChars l).isEmpty))
         anchorId := "chapter-1" }] := by
  rw [process_no_headings content h]

/-- C6, witness at the empty string and at
`"no headings here\njust text"`. -/
theorem claim_c6_fallback_witness :
    ((∀ l ∈ jsLines "", isHeadingLine l = false) ∧
      (processContentWithChapters "").chapters =
        [{ title := "全文".data
           content := joinLines
             ((jsLines "").filter (fun l => !(trimChars l).isEmpty))
           htmlContent := formatChapterContentWithoutTags
             ((jsLines "").filter (fun l => !(trimChars l).isEmpty))
           anchorId := "chapter-1" }]) ∧
    ((∀ l ∈ jsLines "no headings here\njust text", isHeadingLine l = false) ∧
      (processContentWithChapters "no headings here\njust text").chapters =
        [{ title := "全文".data
           content := joinLines
             ((jsLines "no headings here\njust text").filter
               (fun l => !(trimChars l).isEmpty))
           htmlContent := formatChapterContentWithoutTags
             ((jsLines "no headings here\njust text").filter
               (fun l => !(trimChars l).isEmpty))
           anchorId := "chapter-1" }]) :=
  ⟨⟨by decide, claim_c6_fallback "" (by decide)⟩,
   ⟨by decide, claim_c6_fallback "no headings here\njust text" (by decide)⟩⟩

/-! ## Claim C9 -/

/-- C9, counterexample: the viewer's `parseChapters` derives `anchorId` from
the number extracted from the title when one is available, so two chapters
with the duplicate title `Chapter 1` both receive `chapter-1` — anchor ids
are neither unique nor derived from the ordinal position alone. -/
theorem claim_c9_counterexample :
    (viewerParseChapters "Chapter 1\nfoo\nChapter 1").length = 2 ∧
    (viewerParseChapters "Chapter 1\nfoo\nChapter 1").map (·.anchorId) =
      ["chapter-1", "chapter-1"] := by
  decide

/-- C9, amended: for the segmenter's own chapter records the claim holds —
each record's anchor id is `chapter-(i+1)`, a function of its position alone,
and all anchor ids within one document are pairwise distinct; the viewer-side
`parseChapters` list does not share this guarantee. -/
theorem claim_c9_amended (content : String) :
    (processContentWithChapters content).chapters.map (·.anchorId) =
      (List.range (processContentWithChapters content).chapters.length).map
        (fun i => mkAnchorId (i + 1)) ∧
    ((processContentWithChapters content).chapters.map (·.anchorId)).Pairwise
      (· ≠ ·) := by
  refine ⟨process_anchorMap content, ?_⟩
  rw [process_anchorMap content]
  exact anchorList_pairwise _

theorem find?_first {α : Type} (p : α → Bool) :
    ∀ (l : List α) (i : Nat) (hi : i < l.length),
      p (l.get ⟨i, hi⟩) = true →
      (∀ j (hj : j < l.length), j < i → p (l.get ⟨j, hj⟩) = false) →
      l.find? p = some (l.get ⟨i, hi⟩) := by
  intro l
  induction l with
  | nil => intro i hi; exact absurd hi (by simp)
  | cons a tl ih =>
      intro i hi hp hbefore
      cases i with
      | zero =>
          simp only [List.get] at hp
          rw [List.find?_cons_of_pos _ hp]
          rfl
      | succ k =>
          have hpa : p a = false := by
            have := hbefore 0 (by simp) (Nat.succ_pos k)
            simpa using this
          rw [List.find?_cons_of_neg _ (by simp [hpa])]
          have hi' : k < tl.length := by simpa using hi
          have hp' : p (tl.get ⟨k, hi'⟩) = true := by simpa using hp
          have hb' : ∀ j (hj : j < tl.length), j < k →
              p (tl.get ⟨j, hj⟩) = false := by
            intro j hj hlt
            have := hbefore (j + 1) (by simpa using hj) (by omega)
            simpa using this
          simpa using ih k hi' hp' hb'

/-! ## Claim C7 -/

/-- C7, counterexample: a stored scroll position of `0` is present but is not
restored (the JS guard is a truthiness test), and a stored empty title is
present and substring-matches every chapter, yet no chapter is marked
current. -/
theorem claim_c7_counterexample :
    (({ lastChapterTitle := none, lastScrollPosition := some 0 } :
        ReadingHistory).lastScrollPosition = some 0 ∧
     (restoreReadingPosition
        [{ id := "chapter_0", title := "Chapter 1".data, anchorId := "chapter-1" }]
        { lastChapterTitle := none, lastScrollPosition := some 0 }).scrollTarget =
       none) ∧
    (titleMatches []
        { id := "chapter_0", title := "Chapter 1".data, anchorId := "chapter-1" } =
        true ∧
     (restoreReadingPosition
        [{ id := "chapter_0", title := "Chapter 1".data, anchorId := "chapter-1" }]
        { lastChapterTitle := some [], lastScrollPosition := some 450 }).currentChapter =
       none) := by
  decide

/-- C7, amended: whenever the stored scroll position is present AND non-zero
it is restored exactly, independent of chapter matching; whenever the stored
title is present AND non-empty, a chapter is marked current iff some
chapter's title contains the saved title or the saved title contains that
chapter's title. -/
theorem claim_c7_amended (chapters : List ViewerChapter)
    (history : ReadingHistory) :
    (∀ v : Nat, history.lastScrollPosition = some v → v ≠ 0 →
      (restoreReadingPosition chapters history).scrollTarget = some v) ∧
    (∀ t : List Char, history.lastChapterTitle = some t → t ≠ [] →
      ((restoreReadingPosition chapters history).currentChapter.isSome = true ↔
        ∃ ch ∈ chapters, titleMatches t ch = true)) := by
  constructor
  · intro v hv hnz
    unfold restoreReadingPosition
    simp [hv, hnz]
  · intro t ht hne
    unfold restoreReadingPosition
    simp only [ht]
    have hne' : t.isEmpty = false := by
      cases t with
      | nil => exact absurd rfl hne
      | cons c cs => rfl
    by_cases hch : chapters.isEmpty
    · have hnil : chapters = [] := List.isEmpty_iff.mp hch
      subst hnil
      simp [hne']
    · rw [Bool.not_eq_true] at hch
      simp only [hne', hch, Bool.not_false, Bool.and_self, if_true]
      cases hf : chapters.find? (titleMatches t) with
      | none =>
          rw [List.find?_eq_none] at hf
          simp only [Option.isSome_none, Bool.false_eq_true, false_iff]
          rintro ⟨ch, hmem, hmatch⟩
          exact hf ch hmem hmatch
      | some ch =>
          simp only [Option.isSome_some, true_iff]
          exact ⟨ch, List.mem_of_find?_eq_some hf, List.find?_some hf⟩

/-- C7, witness at the spec's worked example: chapters
`Chapter 1 / Chapter 2 / Chapter 3` with history
`{lastChapterTitle: "Chapter 2", lastScrollPosition: 450}` restore scroll 450
and mark exactly the chapter titled `Chapter 2`. -/
theorem claim_c7_amended_witness :
    ((restoreReadingPosition
        [{ id := "chapter_0", title := "Chapter 1".data, anchorId := "chapter-1" },
         { id := "chapter_1", title := "Chapter 2".data, anchorId := "chapter-2" },
         { id := "chapter_2", title := "Chapter 3".data, anchorId := "chapter-3" }]
        { lastChapterTitle := some "Chapter 2".data,
          lastScrollPosition := some 450 }).scrollTarget = some 450) ∧
    ((restoreReadingPosition
        [{ id := "chapter_0", title := "Chapter 1".data, anchorId := "chapter-1" },
         { id := "chapter_1", title := "Chapter 2".data, anchorId := "chapter-2" },
         { id := "chapter_2", title := "Chapter 3".data, anchorId := "chapter-3" }]
        { lastChapterTitle := some "Chapter 2".data,
          lastScrollPosition := some 450 }).currentChapter.isSome = true ↔
      ∃ ch ∈
        [{ id := "chapter_0", title := "Chapter 1".data, anchorId := "chapter-1" },
         { id := "chapter_1", title := "Chapter 2".data, anchorId := "chapter-2" },
         { id := "chapter_2", title := "Chapter 3".data, anchorId := "chapter-3" }],
        titleMatches "Chapter 2".data ch = true) ∧
    ((restoreReadingPosition
        [{ id := "chapter_0", title := "Chapter 1".data, anchorId := "chapter-1" },
         { id := "chapter_1", title := "Chapter 2".data, anchorId := "chapter-2" },
         { id := "chapter_2", title := "Chapter 3".data, anchorId := "chapter-3" }]
        { lastChapterTitle := some "Chapter 2".data,
          lastScrollPosition := some 450 }).currentChapter =
      some { id := "chapter_1", title := "Chapter 2".data }) :=
  ⟨(claim_c7_amended _ _).1 450 rfl (by decide),
   (claim_c7_amended _ _).2 "Chapter 2".data rfl (by decide),
   by decide⟩

/-! ## Claim C8 -/

/-- C8: evaluation at the failing input.  With two chapters
`A` (chapter_0) and `B` (chapter_1) and no stored history, the
`ViewerController` variant (`part_001`) returns the LAST chapter `B` — its
descending loop returns unconditionally on the first iteration — while the
standalone-viewer variant (`part_002`), whose comment states the intent
("Return the first chapter when initially loading the page"), returns the
first chapter `A` as the claim requires. -/
theorem claim_c8_code_bug_eval :
    getCurrentChapterFromPageController
      [{ id := "chapter_0", title := "A".data, anchorId := "chapter-1" },
       { id := "chapter_1", title := "B".data, anchorId := "chapter-2" }] 0 =
      some { id := "chapter_1", title := "B".data } ∧
    getCurrentChapterFromPageStandalone
      [{ id := "chapter_0", title := "A".data, anchorId := "chapter-1" },
       { id := "chapter_1", title := "B".data, anchorId := "chapter-2" }] 0 =
      some { id := "chapter_0", title := "A".data } := by
  decide

/-! ## Claim C10 -/

/-- C10: when the saved title substring-matches several chapters, position
restoration marks the chapter with the smallest index in the chapters array;
a later duplicate-titled chapter is never the one marked current. -/
theorem claim_c10_first_match (chapters : List ViewerChapter)
    (history : ReadingHistory) (t : List Char) (i : Nat)
    (hi : i < chapters.length)
    (ht : history.lastChapterTitle = some t) (hne : t ≠ [])
    (hp : titleMatches t (chapters.get ⟨i, hi⟩) = true)
    (hbefore : ∀ j (hj : j < chapters.length), j < i →
      titleMatches t (chapters.get ⟨j, hj⟩) = false) :
    (restoreReadingPosition chapters history).currentChapter =
      some { id := (chapters.get ⟨i, hi⟩).id,
             title := (chapters.get ⟨i, hi⟩).title } := by
  unfold restoreReadingPosition
  simp only [ht]
  have hne' : t.isEmpty = false := by
    cases t with
    | nil => exact absurd rfl hne
    | cons c cs => rfl
  have hnotempty : chapters.isEmpty = false := by
    cases chapters with
    | nil => exact absurd hi (by simp)
    | cons a tl => rfl
  simp only [hne', hnotempty, Bool.not_false, Bool.and_self, if_true]
  rw [find?_first (titleMatches t) chapters i hi hp hbefore]

/-- C10, witness: with chapters `Intro`, `Chapter 1`, `Chapter 1` and saved
title `Chapter 1`, the chapter at index 1 (the first of the two duplicates)
is marked, not the later one. -/
theorem claim_c10_first_match_witness :
    (restoreReadingPosition
      [{ id := "chapter_0", title := "Intro".data, anchorId := "chapter-1" },
       { id := "chapter_1", title := "Chapter 1".data, anchorId := "chapter-1" },
       { id := "chapter_2", title := "Chapter 1".data, anchorId := "chapter-1" }]
      { lastChapterTitle := some "Chapter 1".data,
        lastScrollPosition := none }).currentChapter =
      some { id := "chapter_1", title := "Chapter 1".data } :=
  claim_c10_first_match
    [{ id := "chapter_0", title := "Intro".data, anchorId := "chapter-1" },
     { id := "chapter_1", title := "Chapter 1".data, anchorId := "chapter-1" },
     { id := "chapter_2", title := "Chapter 1".data, anchorId := "chapter-1" }]
    { lastChapterTitle := some "Chapter 1".data, lastScrollPosition := none }
    "Chapter 1".data 1 (by decide) rfl (by decide) (by decide)
    (fun j hj hlt => by
      interval_cases j
      show titleMatches "Chapter 1".data
        { id := "chapter_0", title := "Intro".data, anchorId := "chapter-1" } = false
      decide)

/-! ## Properties of the spec-modelled chunker (claim C5) -/

theorem groupHeadsAux_fuel :
    ∀ (f1 f2 : Nat) (bs : List Nat) (k : Nat), bs.length ≤ f1 →
      bs.length ≤ f2 → groupHeadsAux f1 bs k = groupHeadsAux f2 bs k := by
  intro f1
  induction f1 with
  | zero =>
      intro f2 bs k h1 h2
      have : bs = [] := List.length_eq_zero.mp (by omega)
      subst this
      cases f2 <;> rfl
  | succ f ih =>
      intro f2 bs k h1 h2
      cases bs with
      | nil => cases f2 <;> rfl
      | cons b t =>
          cases f2 with
          | zero => simp at h2
          | succ g =>
              show b :: groupHeadsAux f (t.drop (k - 1)) k =
                b :: groupHeadsAux g (t.drop (k - 1)) k
              have hd : (t.drop (k - 1)).length ≤ t.length := by
                rw [List.length_drop]
                omega
              simp only [List.length_cons] at h1 h2
              rw [ih g (t.drop (k - 1)) k (by omega) (by omega)]

theorem groupHeads_nil (k : Nat) : groupHeads [] k = [] := rfl

theorem groupHeads_cons (b : Nat) (t : List Nat) (k : Nat) :
    groupHeads (b :: t) k = b :: groupHeads (t.drop (k - 1)) k := by
  show b :: groupHeadsAux t.length (t.drop (k - 1)) k =
    b :: groupHeadsAux (t.drop (k - 1)).length (t.drop (k - 1)) k
  rw [groupHeadsAux_fuel t.length (t.drop (k - 1)).length (t.drop (k - 1)) k
    (by rw [List.length_drop]; omega) le_rfl]

theorem groupHeads_length (k : Nat) (hk : 0 < k) :
    ∀ n : Nat, ∀ bs : List Nat, bs.length ≤ n →
      (groupHeads bs k).length = (bs.length + k - 1) / k := by
  intro n
  induction n with
  | zero =>
      intro bs hbs
      have : bs = [] := List.length_eq_zero.mp (by omega)
      subst this
      rw [groupHeads_nil]
      simp only [List.length_nil]
      exact (Nat.div_eq_of_lt (by omega)).symm
  | succ n ih =>
      intro bs hbs
      cases bs with
      | nil =>
          rw [groupHeads_nil]
          simp only [List.length_nil]
          exact (Nat.div_eq_of_lt (by omega)).symm
      | cons b t =>
          rw [groupHeads_cons]
          have hdrop : (t.drop (k - 1)).length = t.length - (k - 1) :=
            List.length_drop _ _
          have hlen : (t.drop (k - 1)).length ≤ n := by
            simp only [List.length_cons] at hbs
            omega
          simp only [List.length_cons]
          rw [ih (t.drop (k - 1)) hlen, hdrop]
          rcases le_or_lt (t.length + 1) k with hle | hlt
          · have hz : t.length - (k - 1) = 0 := by omega
            rw [hz]
            have h1 : t.length + 1 + k - 1 = t.length + k := by omega
            rw [h1, Nat.add_div_right _ hk,
              Nat.div_eq_of_lt (by omega : t.length < k),
              Nat.div_eq_of_lt (by omega : 0 + k - 1 < k)]
          · have h1 : t.length + 1 + k - 1 = (t.length + 1 - 1) + k := by omega
            have h2 : t.length - (k - 1) + k - 1 = (t.length + 1 - 1 - k) + k := by
              omega
            rw [h1, h2, Nat.add_div_right _ hk, Nat.add_div_right _ hk]
            have h3 : t.length + 1 - 1 = (t.length + 1 - 1 - k) + k := by omega
            conv_rhs => rw [h3, Nat.add_div_right _ hk]

theorem chunkRanges_length (total : Nat) :
    ∀ starts : List Nat, (chunkRanges starts total).length = starts.length := by
  intro starts
  induction starts with
  | nil => rfl
  | cons s rest ih =>
      cases rest with
      | nil => rfl
      | cons s2 r =>
          show ((s, s2) :: chunkRanges (s2 :: r) total).length = _
          simp only [List.length_cons] at ih ⊢
          omega

theorem chunkRanges_cover (total : Nat) :
    ∀ starts : List Nat, ∀ s0 rest, starts = s0 :: rest →
      chainedCover (chunkRanges starts total) s0 total = true := by
  intro starts
  induction starts with
  | nil => intro s0 rest h; cases h
  | cons s tl ih =>
      intro s0 rest h
      injection h with h1 h2
      subst h1
      subst h2
      cases tl with
      | nil => simp [chunkRanges, chainedCover]
      | cons s2 r =>
          show chainedCover ((s, s2) :: chunkRanges (s2 :: r) total) s total = true
          simp [chainedCover, ih s2 r rfl]

theorem chunkRanges_fst_mem (total : Nat) :
    ∀ starts : List Nat, ∀ r ∈ chunkRanges starts total, r.1 ∈ starts := by
  intro starts
  induction starts with
  | nil => intro r hr; cases hr
  | cons s tl ih =>
      intro r hr
      cases tl with
      | nil =>
          simp only [chunkRanges, List.mem_singleton] at hr
          subst hr
          simp
      | cons s2 rest =>
          rw [show chunkRanges (s :: s2 :: rest) total =
              (s, s2) :: chunkRanges (s2 :: rest) total from rfl] at hr
          rcases List.mem_cons.mp hr with h | h
          · subst h; simp
          · exact List.mem_cons_of_mem s (ih r h)

theorem chunkRanges_wellformed (total : Nat) :
    ∀ starts : List Nat, starts.Pairwise (· < ·) →
      (∀ x ∈ starts, x ≤ total) →
      ∀ r ∈ chunkRanges starts total, r.1 ≤ r.2 := by
  intro starts
  induction starts with
  | nil => intro _ _ r hr; cases hr
  | cons s tl ih =>
      intro hpw hbound r hr
      cases tl with
      | nil =>
          simp only [chunkRanges, List.mem_singleton] at hr
          subst hr
          exact hbound s (by simp)
      | cons s2 rest =>
          rw [show chunkRanges (s :: s2 :: rest) total =
              (s, s2) :: chunkRanges (s2 :: rest) total from rfl] at hr
          rcases List.mem_cons.mp hr with h | h
          · subst h
            have := List.rel_of_pairwise_cons hpw (List.mem_cons_self s2 rest)
            omega
          · exact ih (List.Pairwise.of_cons hpw)
              (fun x hx => hbound x (List.mem_cons_of_mem s hx)) r h

theorem groupHeads_sublist (k : Nat) :
    ∀ n : Nat, ∀ bs : List Nat, bs.length ≤ n →
      (groupHeads bs k).Sublist bs := by
  intro n
  induction n with
  | zero =>
      intro bs hbs
      have : bs = [] := List.length_eq_zero.mp (by omega)
      subst this
      rw [groupHeads_nil]
  | succ n ih =>
      intro bs hbs
      cases bs with
      | nil => rw [groupHeads_nil]
      | cons b t =>
          rw [groupHeads_cons]
          refine List.Sublist.cons₂ b ?_
          have hlen : (t.drop (k - 1)).length ≤ n := by
            have := List.length_drop (k - 1) t
            simp only [List.length_cons] at hbs
            omega
          exact (ih (t.drop (k - 1)) hlen).trans (List.drop_sublist (k - 1) t)

theorem mem_enumFrom_bounds {α : Type} :
    ∀ (l : List α) (n : Nat) (p : Nat × α), p ∈ List.enumFrom n l →
      n ≤ p.1 ∧ p.1 < n + l.length := by
  intro l
  induction l with
  | nil => intro n p hp; cases hp
  | cons a t ih =>
      intro n p hp
      rcases List.mem_cons.mp hp with h | h
      · subst h; simp
      · have := ih (n + 1) p h
        simp only [List.length_cons]
        omega

theorem pairwise_enumFrom {α : Type} :
    ∀ (l : List α) (n : Nat),
      (List.enumFrom n l).Pairwise (fun a b => a.1 < b.1) := by
  intro l
  induction l with
  | nil => intro n; exact List.Pairwise.nil
  | cons a t ih =>
      intro n
      refine List.Pairwise.cons ?_ (ih (n + 1))
      intro p hp
      have := (mem_enumFrom_bounds t (n + 1) p hp).1
      simp only []
      omega

theorem detectBoundaries_sorted (content : String) :
    ((detectBoundaries content).map (·.1)).Pairwise (· < ·) := by
  unfold detectBoundaries
  rw [List.map_map, List.pairwise_map]
  exact ((pairwise_enumFrom (jsLines content) 0).filter _).imp (fun h => h)

theorem detectBoundaries_bounded (content : String) :
    ∀ x ∈ (detectBoundaries content).map (·.1), x ≤ (jsLines content).length := by
  unfold detectBoundaries
  intro x hx
  rw [List.map_map, List.mem_map] at hx
  obtain ⟨p, hp, rfl⟩ := hx
  have hp2 : p ∈ (jsLines content).enum := List.mem_of_mem_filter hp
  have := (mem_enumFrom_bounds (jsLines content) 0 p hp2).2
  simp only [Function.comp] at *
  omega

/-! ## Claim C5 -/

/-- C5 (spec-modelled chunker): with `n` boundaries and per-chunk limit `k`,
the splitter returns the single whole-document chunk when `n ≤ k`; otherwise
it returns exactly `⌈n/k⌉` chunks whose half-open line ranges tile
`[b₀.lineIndex, EOF)` with no overlap and no gap, every chunk starting at or
after the first boundary — so content strictly before the first boundary is
in no chunk. -/
theorem claim_c5_chunker (content : String) (k : Nat) (hk : 0 < k) :
    ((detectBoundaries content).length ≤ k →
      chunkSplit content k = [(0, (jsLines content).length)]) ∧
    (k < (detectBoundaries content).length →
      (chunkSplit content k).length =
        ((detectBoundaries content).length + k - 1) / k ∧
      ∀ b0 bt, (detectBoundaries content).map (·.1) = b0 :: bt →
        chainedCover (chunkSplit content k) b0 (jsLines content).length = true ∧
        ∀ r ∈ chunkSplit content k, b0 ≤ r.1 ∧ r.1 ≤ r.2) := by
  constructor
  · intro hle
    simp only [chunkSplit]
    rw [if_pos hle]
  · intro hlt
    have hbs : chunkSplit content k =
        chunkRanges (groupHeads ((detectBoundaries content).map (·.1)) k)
          (jsLines content).length := by
      simp only [chunkSplit]
      rw [if_neg (by omega)]
    constructor
    · rw [hbs, chunkRanges_length,
        groupHeads_length k hk ((detectBoundaries content).map (·.1)).length _
          le_rfl]
      simp [List.length_map]
    · intro b0 bt hmap
      have hgh : groupHeads ((detectBoundaries content).map (·.1)) k =
          b0 :: groupHeads (bt.drop (k - 1)) k := by
        rw [hmap, groupHeads_cons]
      have hsub : (groupHeads ((detectBoundaries content).map (·.1)) k).Sublist
          ((detectBoundaries content).map (·.1)) :=
        groupHeads_sublist k ((detectBoundaries content).map (·.1)).length _
          le_rfl
      have hpw : (groupHeads ((detectBoundaries content).map (·.1)) k).Pairwise
          (· < ·) := (detectBoundaries_sorted content).sublist hsub
      have hbound : ∀ x ∈ groupHeads ((detectBoundaries content).map (·.1)) k,
          x ≤ (jsLines content).length := fun x hx =>
        detectBoundaries_bounded content x (hsub.subset hx)
      constructor
      · rw [hbs]
        exact chunkRanges_cover _ _ b0 _ hgh
      · intro r hr
        rw [hbs] at hr
        have hmem := chunkRanges_fst_mem _ _ r hr
        have hwf := chunkRanges_wellformed _ _ hpw hbound r hr
        refine ⟨?_, hwf⟩
        rw [hgh] at hmem hpw
        rcases List.mem_cons.mp hmem with h | h
        · omega
        · have := List.rel_of_pairwise_cons hpw h
          omega

/-- C5, witness on a seven-line document with three detected boundaries
(lines 1, 3, 5): with `k = 5` no split happens; with `k = 2` the split yields
`⌈3/2⌉ = 2` chunks `[1,5)` and `[5,7)` tiling `[1, EOF)` and excluding the
front-matter line 0. -/
theorem claim_c5_chunker_witness :
    ((0 : Nat) < 5 ∧
     (detectBoundaries "intro\nChapter 1\nx\nChapter 2\ny\nChapter 3\nz").length ≤ 5 ∧
     chunkSplit "intro\nChapter 1\nx\nChapter 2\ny\nChapter 3\nz" 5 =
       [(0, (jsLines "intro\nChapter 1\nx\nChapter 2\ny\nChapter 3\nz").length)]) ∧
    ((0 : Nat) < 2 ∧
     2 < (detectBoundaries "intro\nChapter 1\nx\nChapter 2\ny\nChapter 3\nz").length ∧
     (chunkSplit "intro\nChapter 1\nx\nChapter 2\ny\nChapter 3\nz" 2).length =
       ((detectBoundaries "intro\nChapter 1\nx\nChapter 2\ny\nChapter 3\nz").length + 2 - 1) / 2 ∧
     chainedCover (chunkSplit "intro\nChapter 1\nx\nChapter 2\ny\nChapter 3\nz" 2) 1
       (jsLines "intro\nChapter 1\nx\nChapter 2\ny\nChapter 3\nz").length = true ∧
     chunkSplit "intro\nChapter 1\nx\nChapter 2\ny\nChapter 3\nz" 2 = [(1, 5), (5, 7)]) :=
  ⟨⟨by decide, by decide,
    (claim_c5_chunker "intro\nChapter 1\nx\nChapter 2\ny\nChapter 3\nz" 5
      (by decide)).1 (by decide)⟩,
   by decide, by decide,
   ((claim_c5_chunker "intro\nChapter 1\nx\nChapter 2\ny\nChapter 3\nz" 2
      (by decide)).2 (by decide)).1,
   (((claim_c5_chunker "intro\nChapter 1\nx\nChapter 2\ny\nChapter 3\nz" 2
      (by decide)).2 (by decide)).2 1 [3, 5] (by decide)).1,
   by decide⟩
